import Mathlib

/-!
Verification development for `collection_poster_sync.py`, a one-shot batch job
that synchronizes a folder of local poster images to media-server collections.

The Python source is shallowly embedded.  Pure helpers (name normalization,
`os.path.splitext`, the directory filter, the cache map operations) become
Lean functions on `List Char` / `String` / association lists.  Calls that hit
the outside world (file hashing, poster listing, poster download, poster
upload, the post-upload poster lookup) are modelled by a `RemoteEnv` record
holding the values those calls return during one item's processing; `none`
models a Python `None` result (failure / absence).  The mutable poster-state
cache dictionary is threaded explicitly and returned.
-/

namespace PosterSync

/-- Whitespace characters matched by Python's ASCII `\s` and stripped by
`str.strip()`: space, tab, newline, carriage return, vertical tab, form feed. -/
def isPySpace (c : Char) : Bool :=
  c = ' ' || c = '\t' || c = '\n' || c = '\r' || c = '\x0b' || c = '\x0c'

/-- A character that is a hyphen (Python regex `-`). -/
def isHyphen (c : Char) : Bool :=
  c = '-'

/-- A character matched by the Python regex class `[\s\-]`. -/
def isSpaceOrHyphen (c : Char) : Bool :=
  isPySpace c || isHyphen c

/-- Python `str.lower()` on the ASCII range, character-wise. -/
def pyLower (l : List Char) : List Char :=
  l.map Char.toLower

/-- Python `str.strip()`: drop leading and trailing whitespace. -/
def pyStrip (l : List Char) : List Char :=
  ((l.dropWhile isPySpace).reverse.dropWhile isPySpace).reverse

/-- Worker for `collapseRuns`.  The Boolean flag records whether the previous
character was part of a run matched by `p` (in which case further matching
characters are dropped rather than emitting another `r`). -/
def collapseRunsAux (p : Char → Bool) (r : Char) : List Char → Bool → List Char
  | [], _ => []
  | c :: cs, inRun =>
    if p c then
      if inRun then collapseRunsAux p r cs true
      else r :: collapseRunsAux p r cs true
    else c :: collapseRunsAux p r cs false

/-- Python `re.sub(p+, r, l)`: replace every maximal run of characters
matched by `p` with the single character `r`. -/
def collapseRuns (p : Char → Bool) (r : Char) (l : List Char) : List Char :=
  collapseRunsAux p r l false

/-- Shallow embedding of `normalize_collection_name` (source lines 196-223):
lowercase and strip the name; with `NORMALIZE_HYPHENS` on, collapse every run
of spaces and hyphens into one space (`re.sub(r"[\s\-]+", " ", _)`);
with it off, collapse space runs to one space and hyphen runs to one hyphen
separately (`re.sub(r"\s+", " ", _)` then `re.sub(r"-+", "-", _)`). -/
def normalize_collection_name (normalize_hyphens : Bool) (name : String) : String :=
  let normalized := pyStrip (pyLower name.data)
  if normalize_hyphens then
    String.mk (collapseRuns isSpaceOrHyphen ' ' normalized)
  else
    String.mk (collapseRuns isHyphen '-' (collapseRuns isPySpace ' ' normalized))

/-- Python `str.lower()` on a `String`. -/
def strLower (s : String) : String :=
  String.mk (pyLower s.data)

/-- Shallow embedding of `os.path.splitext` restricted to plain file names
(directory-entry names contain no path separator): split at the last dot,
unless every character before that dot is itself a dot (so names such as
`.bashrc` or `..` have no extension). -/
def splitext (s : String) : String × String :=
  let cs := s.data
  let revTail := cs.reverse.takeWhile (fun c => c ≠ '.')
  if revTail.length = cs.length then (s, "")
  else
    let cut := cs.length - revTail.length - 1
    if (cs.take cut).any (fun c => c ≠ '.') then
      (String.mk (cs.take cut), String.mk (cs.drop cut))
    else (s, "")

/-- One entry of a directory listing, as seen through `os.scandir`:
its name and whether `entry.is_file()` holds. -/
structure DirEntry where
  name : String
  isFile : Bool
deriving DecidableEq

/-- The fixed allow-list `IMAGE_EXTENSIONS` (source line 55). -/
def IMAGE_EXTENSIONS : List String :=
  [".jpg", ".jpeg", ".png", ".tbn"]

/-- Loop body of the `os.scandir` loop in `get_image_files` (source lines
240-253): skip non-files, keep files whose lowercased extension is in the
allow-list, and record `(name, path, name-without-extension)`. -/
def scanStep (folder : String) (acc : List (String × String × String))
    (entry : DirEntry) : List (String × String × String) :=
  if !entry.isFile then acc
  else if strLower (splitext entry.name).2 ∈ IMAGE_EXTENSIONS then
    acc ++ [(entry.name, folder ++ "/" ++ entry.name, (splitext entry.name).1)]
  else acc

/-- Shallow embedding of `get_image_files` (source lines 225-258); the
Boolean models `os.path.exists(POSTER_FOLDER)`. -/
def get_image_files (folder_exists : Bool) (folder : String)
    (entries : List DirEntry) : List (String × String × String) :=
  if !folder_exists then []
  else entries.foldl (scanStep folder) []

/-- One value of the poster-state cache dictionary:
`{"local_hash": ..., "poster_key": ...}`.  The `poster_key` field is optional
because the Python code stores the raw `get_current_poster_key` result
(a string or `None`) at source line 614. -/
structure CacheEntry where
  local_hash : String
  poster_key : Option String
deriving DecidableEq

/-- The poster-state cache: a mapping from collection rating key to entry,
as an association list with unique keys (a Python dict). -/
abbrev Cache := List (String × CacheEntry)

/-- Python `cache.get(rating_key)`. -/
def cacheGet (c : Cache) (k : String) : Option CacheEntry :=
  match c with
  | [] => none
  | (k', v) :: rest => if k' = k then some v else cacheGet rest k

/-- Python `cache[rating_key] = v`: replace the entry if the key is present,
append it otherwise. -/
def cacheSet (c : Cache) (k : String) (v : CacheEntry) : Cache :=
  match c with
  | [] => [(k, v)]
  | (k', v') :: rest =>
    if k' = k then (k, v) :: rest else (k', v') :: cacheSet rest k v

/-- One remote poster candidate, with its opaque key and `selected` flag. -/
structure Poster where
  key : String
  selected : Bool
deriving DecidableEq

/-- Shallow embedding of `get_current_poster_key` (source lines 327-347):
the key of the first poster flagged `selected`, or `none`.  A listing failure
is modelled by an empty poster list. -/
def get_current_poster_key (posters : List Poster) : Option String :=
  (posters.find? (fun p => p.selected)).map (fun p => p.key)

/-- Python truthiness of an optional string: `None` and `""` are falsy. -/
def optStrTruthy : Option String → Bool
  | none => false
  | some s => s ≠ ""

/-- Python `x or ""` for an optional string: the string when truthy,
otherwise `""`. -/
def pyOrEmpty : Option String → String
  | none => ""
  | some s => if s = "" then "" else s

/-- The outside-world values observed while processing one image file.
`local_hash` is what `calculate_file_hash` returns (`none` on read failure);
`posters` is the remote collection's poster list during change detection;
`download_hash` is the SHA-256 of the downloaded current-poster bytes
(`none` when the download fails); `upload_file_exists` and
`upload_attempt_ok` drive `upload_poster`; `posters_after_upload` is the
poster list at the post-upload `get_current_poster_key` call
(source line 651). -/
structure RemoteEnv where
  local_hash : Option String
  posters : List Poster
  download_hash : Option String
  upload_file_exists : Bool
  upload_attempt_ok : Nat → Bool
  posters_after_upload : List Poster

/-- Shallow embedding of `get_current_poster_hash` (source lines 435-485),
hash component only (the callers discard the second component): `none` when
no poster key is selected, the key is empty, or the download fails. -/
def get_current_poster_hash (env : RemoteEnv) : Option String :=
  match get_current_poster_key env.posters with
  | none => none
  | some k => if k = "" then none else env.download_hash

/-- The configuration surface relevant to the embedded logic:
`REAPPLY_POSTERS`, `NORMALIZE_HYPHENS`, and `MAX_RETRIES`. -/
structure Config where
  reapply_posters : Bool
  normalize_hyphens : Bool
  max_retries : Nat

/-- The retry loop of `upload_poster` (source lines 504-527), started at a
given attempt index with `remaining = MAX_RETRIES - attempt` loop iterations
left.  Returns (success, total attempts made, backoff sleeps performed in
order).  A failure before the last allowed attempt (`remaining ≥ 2`) sleeps
`2 ^ attempt` and retries; a failure at the last attempt returns `False`. -/
def uploadGo (succeeds : Nat → Bool) (attempt : Nat) :
    Nat → Bool × Nat × List Nat
  | 0 => (false, attempt, [])
  | remaining + 1 =>
    if succeeds attempt then (true, attempt + 1, [])
    else if remaining = 0 then (false, attempt + 1, [])
    else
      let r := uploadGo succeeds (attempt + 1) remaining
      (r.1, r.2.1, 2 ^ attempt :: r.2.2)

/-- Shallow embedding of `upload_poster` (source lines 487-527): fail with no
attempts when the image file no longer exists, otherwise run the retry loop
from attempt 0 with `MAX_RETRIES` iterations available. -/
def upload_poster (file_exists : Bool) (max_retries : Nat)
    (succeeds : Nat → Bool) : Bool × Nat × List Nat :=
  if !file_exists then (false, 0, [])
  else uploadGo succeeds 0 max_retries

/-- Shallow embedding of `find_collection_by_name` (source lines 304-325):
look the normalized target name up in the prebuilt index.  Index values are
the matched collection's rating key (`str(collection.ratingKey)`). -/
def find_collection_by_name (cfg : Config) (target : String)
    (index : List (String × String)) : Option String :=
  match index with
  | [] => none
  | (k, v) :: rest =>
    if k = normalize_collection_name cfg.normalize_hyphens target then some v
    else find_collection_by_name cfg target rest

/-- The change-detection part of `process_image_file` (source lines 571-644):
decide `should_update`, remember the computed local hash, and perform the two
cache-refresh writes.  Returns `(should_update, local_hash, cache)`. -/
def change_detect (cfg : Config) (env : RemoteEnv) (rating_key : String)
    (cache : Cache) : Bool × Option String × Cache :=
  if cfg.reapply_posters then (true, none, cache)
  else
    let local_hash := env.local_hash
    match local_hash with
    | none => (true, none, cache)
    | some lh =>
      if lh = "" then (true, local_hash, cache)
      else
        let current_poster_key := get_current_poster_key env.posters
        let elif_branch : Bool × Option String × Cache :=
          if optStrTruthy current_poster_key then
            if get_current_poster_hash env = some lh then
              (false, local_hash,
                cacheSet cache rating_key ⟨lh, current_poster_key⟩)
            else (true, local_hash, cache)
          else (true, local_hash, cache)
        match cacheGet cache rating_key with
        | some cached =>
          if cached.local_hash = lh then
            if current_poster_key = cached.poster_key then
              (false, local_hash, cache)
            else if get_current_poster_hash env = some lh then
              (false, local_hash,
                cacheSet cache rating_key ⟨lh, current_poster_key⟩)
            else (true, local_hash, cache)
          else elif_branch
        | none => elif_branch

/-- Shallow embedding of `process_image_file` (source lines 529-660):
resolve the collection, run change detection, upload when required, and on a
successful upload with a computed local hash write the fresh cache entry
(`poster_key` is `new_poster_key or ""`, source line 654).  Returns
`(status, rating_key, new_poster_key, local_hash, cache)`. -/
def process_image_file (cfg : Config) (env : RemoteEnv)
    (collection_name : String) (collection_index : List (String × String))
    (cache : Cache) : String × Option String × Option String × Option String × Cache :=
  match find_collection_by_name cfg collection_name collection_index with
  | none => ("not_found", none, none, none, cache)
  | some rating_key =>
    let d := change_detect cfg env rating_key cache
    let should_update := d.1
    let local_hash := d.2.1
    let cache₁ := d.2.2
    if should_update then
      if (upload_poster env.upload_file_exists cfg.max_retries env.upload_attempt_ok).1 then
        if optStrTruthy local_hash then
          let new_poster_key := get_current_poster_key env.posters_after_upload
          ("updated", some rating_key, new_poster_key, local_hash,
            cacheSet cache₁ rating_key
              ⟨local_hash.getD "", some (pyOrEmpty new_poster_key)⟩)
        else ("updated", some rating_key, none, local_hash, cache₁)
      else ("skipped", some rating_key, none, local_hash, cache₁)
    else ("skipped", some rating_key, none, local_hash, cache₁)

/-- Result of one whole run of `sync_posters`: the three summary counters,
the final in-memory cache, and how many times `save_poster_cache` ran. -/
structure SyncResult where
  updated : Nat
  skipped : Nat
  not_found : Nat
  cache : Cache
  cache_saves : Nat

/-- Counter/cache accumulation for one processed file (source lines 715-729,
sequentialized). -/
def sync_step (cfg : Config) (collection_index : List (String × String))
    (env_of : String → RemoteEnv) (acc : Nat × Nat × Nat × Cache)
    (f : String × String × String) : Nat × Nat × Nat × Cache :=
  let r := process_image_file cfg (env_of f.1) f.2.2 collection_index acc.2.2.2
  if r.1 = "updated" then (acc.1 + 1, acc.2.1, acc.2.2.1, r.2.2.2.2)
  else if r.1 = "skipped" then (acc.1, acc.2.1 + 1, acc.2.2.1, r.2.2.2.2)
  else if r.1 = "not_found" then (acc.1, acc.2.1, acc.2.2.1 + 1, r.2.2.2.2)
  else (acc.1, acc.2.1, acc.2.2.1, r.2.2.2.2)

/-- Shallow embedding of `sync_posters` (source lines 662-739): scan the
folder, return early (saving nothing) when no image files were found,
otherwise process every file and save the cache exactly once at the end.
Per-item remote interactions are supplied by `env_of`, keyed by file name;
the thread pool is sequentialized, which preserves counter totals and the
save count. -/
def sync_posters (cfg : Config) (folder_exists : Bool) (folder : String)
    (entries : List DirEntry) (collection_index : List (String × String))
    (env_of : String → RemoteEnv) (cache₀ : Cache) : SyncResult :=
  let image_files := get_image_files folder_exists folder entries
  if image_files.isEmpty then ⟨0, 0, 0, cache₀, 0⟩
  else
    let final := image_files.foldl (sync_step cfg collection_index env_of) (0, 0, 0, cache₀)
    ⟨final.1, final.2.1, final.2.2.1, final.2.2.2, 1⟩

/-- No two adjacent characters of the list both satisfy `p` (so every
`p`-matched character is an isolated run of length one). -/
def noAdj (p : Char → Bool) : List Char → Prop
  | [] => True
  | [_] => True
  | a :: b :: rest => (p a = false ∨ p b = false) ∧ noAdj p (b :: rest)

/-- Sample configuration: `REAPPLY_POSTERS` off, `NORMALIZE_HYPHENS` on,
`MAX_RETRIES` 3 (the defaults). -/
def cfgMain : Config := ⟨false, true, 3⟩

/-- Sample configuration with `REAPPLY_POSTERS` on. -/
def cfgReapply : Config := ⟨true, true, 3⟩

/-- Sample environment: local hash `h1`, remote poster `pk1` selected, and
the downloaded current poster also hashes to `h1`. -/
def envMatch : RemoteEnv := ⟨some "h1", [⟨"pk1", true⟩], some "h1", true, fun _ => true, []⟩

/-- Sample environment: local hash `h1`, no current remote poster, upload
succeeds, and the post-upload poster lookup sees `pk9` selected. -/
def envUpload : RemoteEnv := ⟨some "h1", [], none, true, fun _ => true, [⟨"pk9", true⟩]⟩

/-- Sample environment like `envUpload` but the post-upload poster lookup
finds no selected poster. -/
def envUploadNoKey : RemoteEnv := ⟨some "h1", [], none, true, fun _ => true, []⟩

/-- Sample environment for a forced-reapply run: the local file hashes to
`newhash`, the remote poster `pk1` is selected and its bytes hash to
`oldhash`, and the upload succeeds. -/
def envReapply : RemoteEnv :=
  ⟨some "newhash", [⟨"pk1", true⟩], some "oldhash", true, fun _ => true, [⟨"pk2", true⟩]⟩

/-- Sample environment with no observable remote state at all. -/
def envInert : RemoteEnv := ⟨none, [], none, true, fun _ => true, []⟩

/-! ### Helper lemmas: character-run collapsing -/

theorem collapseRunsAux_cons_pos {p : Char → Bool} {r c : Char} {cs : List Char}
    (hp : p c = true) : collapseRunsAux p r (c :: cs) true = collapseRunsAux p r cs true := by
  simp [collapseRunsAux, hp]

theorem collapseRunsAux_cons_pos_start {p : Char → Bool} {r c : Char} {cs : List Char}
    (hp : p c = true) :
    collapseRunsAux p r (c :: cs) false = r :: collapseRunsAux p r cs true := by
  simp [collapseRunsAux, hp]

theorem collapseRunsAux_cons_neg {p : Char → Bool} {r c : Char} {cs : List Char}
    {b : Bool} (hp : p c = false) :
    collapseRunsAux p r (c :: cs) b = c :: collapseRunsAux p r cs false := by
  simp [collapseRunsAux, hp]

theorem mem_collapseRunsAux {p : Char → Bool} {r : Char} :
    ∀ {l : List Char} {b : Bool} {c : Char},
      c ∈ collapseRunsAux p r l b → c = r ∨ c ∈ l := by
  intro l
  induction l with
  | nil => intro b c hc; simp [collapseRunsAux] at hc
  | cons a as ih =>
    intro b c hc
    cases hp : p a with
    | false =>
      simp only [collapseRunsAux, hp, Bool.false_eq_true, if_false, List.mem_cons] at hc
      rcases hc with h | h
      · exact Or.inr (List.mem_cons.2 (Or.inl h))
      · rcases ih h with h' | h'
        · exact Or.inl h'
        · exact Or.inr (List.mem_cons.2 (Or.inr h'))
    | true =>
      cases b with
      | true =>
        simp [collapseRunsAux, hp] at hc
        rcases ih hc with h' | h'
        · exact Or.inl h'
        · exact Or.inr (List.mem_cons.2 (Or.inr h'))
      | false =>
        simp [collapseRunsAux, hp] at hc
        rcases hc with h | h
        · exact Or.inl h
        · rcases ih h with h' | h'
          · exact Or.inl h'
          · exact Or.inr (List.mem_cons.2 (Or.inr h'))

theorem chars_collapseRunsAux {p : Char → Bool} {r : Char} :
    ∀ {l : List Char} {b : Bool} {c : Char},
      c ∈ collapseRunsAux p r l b → c = r ∨ p c = false := by
  intro l
  induction l with
  | nil => intro b c hc; simp [collapseRunsAux] at hc
  | cons a as ih =>
    intro b c hc
    cases hp : p a with
    | false =>
      simp only [collapseRunsAux, hp, Bool.false_eq_true, if_false, List.mem_cons] at hc
      rcases hc with h | h
      · subst h; exact Or.inr hp
      · exact ih h
    | true =>
      cases b with
      | true =>
        simp [collapseRunsAux, hp] at hc
        exact ih hc
      | false =>
        simp [collapseRunsAux, hp] at hc
        rcases hc with h | h
        · exact Or.inl h
        · exact ih h

theorem head_collapseRunsAux_true {p : Char → Bool} {r : Char} :
    ∀ {l : List Char} {c : Char},
      (collapseRunsAux p r l true).head? = some c → p c = false := by
  intro l
  induction l with
  | nil => intro c hc; simp [collapseRunsAux] at hc
  | cons a as ih =>
    intro c hc
    cases hp : p a with
    | false =>
      simp only [collapseRunsAux, hp, Bool.false_eq_true, if_false,
        List.head?_cons, Option.some.injEq] at hc
      subst hc; exact hp
    | true =>
      simp [collapseRunsAux, hp] at hc
      exact ih hc

theorem noAdj_cons_of {p : Char → Bool} {a : Char} {t : List Char}
    (hh : ∀ c, t.head? = some c → p a = false ∨ p c = false)
    (ht : noAdj p t) : noAdj p (a :: t) := by
  cases t with
  | nil => simp [noAdj]
  | cons b u => exact ⟨hh b rfl, ht⟩

theorem noAdj_tail {p : Char → Bool} {a : Char} {t : List Char}
    (h : noAdj p (a :: t)) : noAdj p t := by
  cases t with
  | nil => simp [noAdj]
  | cons b u => exact h.2

theorem noAdj_head {p : Char → Bool} {a : Char} {t : List Char}
    (h : noAdj p (a :: t)) (hp : p a = true) :
    ∀ c, t.head? = some c → p c = false := by
  intro c hc
  cases t with
  | nil => simp at hc
  | cons b u =>
    simp only [List.head?_cons, Option.some.injEq] at hc
    subst hc
    rcases h.1 with h' | h'
    · rw [hp] at h'; cases h'
    · exact h'

theorem noAdj_collapseRunsAux {p : Char → Bool} {r : Char} :
    ∀ {l : List Char} {b : Bool}, noAdj p (collapseRunsAux p r l b) := by
  intro l
  induction l with
  | nil => intro b; simp [collapseRunsAux, noAdj]
  | cons a as ih =>
    intro b
    cases hp : p a with
    | false =>
      simp only [collapseRunsAux, hp, Bool.false_eq_true, if_false]
      exact noAdj_cons_of (fun c hc => Or.inl hp) ih
    | true =>
      cases b with
      | true =>
        simp only [collapseRunsAux, hp, if_true]
        exact ih
      | false =>
        simp only [collapseRunsAux, hp, if_true]
        exact noAdj_cons_of
          (fun c hc => Or.inr (head_collapseRunsAux_true hc)) ih

theorem collapseRunsAux_true_eq_false {p : Char → Bool} {r : Char}
    {l : List Char} (hh : ∀ c, l.head? = some c → p c = false) :
    collapseRunsAux p r l true = collapseRunsAux p r l false := by
  cases l with
  | nil => rfl
  | cons a as =>
    have hp := hh a rfl
    simp [collapseRunsAux, hp]

theorem collapseRunsAux_fix {p : Char → Bool} {r : Char} :
    ∀ {l : List Char}, (∀ c ∈ l, p c = true → c = r) → noAdj p l →
      collapseRunsAux p r l false = l := by
  intro l
  induction l with
  | nil => intro _ _; rfl
  | cons a as ih =>
    intro hok hadj
    cases hp : p a with
    | false =>
      simp only [collapseRunsAux, hp, Bool.false_eq_true, if_false]
      exact congrArg (a :: ·)
        (ih (fun c hc => hok c (List.mem_cons_of_mem _ hc)) (noAdj_tail hadj))
    | true =>
      have har : a = r := hok a (List.mem_cons_self _ _) hp
      have hhd := noAdj_head hadj hp
      simp only [collapseRunsAux, hp, if_true, Bool.false_eq_true, if_false]
      rw [collapseRunsAux_true_eq_false hhd,
        ih (fun c hc => hok c (List.mem_cons_of_mem _ hc)) (noAdj_tail hadj), har]

theorem collapseRunsAux_idem {p : Char → Bool} {r : Char} (hr : p r = true) :
    ∀ {l : List Char} {b : Bool},
      collapseRunsAux p r (collapseRunsAux p r l b) b = collapseRunsAux p r l b := by
  intro l
  induction l with
  | nil => intro b; rfl
  | cons a as ih =>
    intro b
    cases hp : p a with
    | false =>
      simp only [collapseRunsAux, hp, Bool.false_eq_true, if_false]
      exact congrArg (a :: ·) ih
    | true =>
      cases b with
      | true =>
        simp only [collapseRunsAux, hp, if_true]
        exact ih
      | false =>
        simp only [collapseRunsAux, hp, if_true, hr]
        exact congrArg (r :: ·) ih

theorem noAdj_collapseRunsAux_preserve {p q : Char → Bool} {s : Char}
    (hs : p s = false) :
    ∀ {l : List Char} {b : Bool}, noAdj p l → noAdj p (collapseRunsAux q s l b) := by
  intro l
  induction l with
  | nil => intro b _; simp [collapseRunsAux, noAdj]
  | cons a as ih =>
    intro b hadj
    cases hqa : q a with
    | true =>
      cases b with
      | true =>
        simp only [collapseRunsAux, hqa, if_true]
        exact ih (noAdj_tail hadj)
      | false =>
        simp only [collapseRunsAux, hqa, if_true]
        exact noAdj_cons_of (fun c _ => Or.inl hs) (ih (noAdj_tail hadj))
    | false =>
      simp only [collapseRunsAux, hqa, Bool.false_eq_true, if_false]
      refine noAdj_cons_of (fun c hc => ?_) (ih (noAdj_tail hadj))
      cases hpa : p a with
      | false => exact Or.inl rfl
      | true =>
        refine Or.inr ?_
        have hhd := noAdj_head hadj hpa
        cases as with
        | nil => simp [collapseRunsAux] at hc
        | cons d ds =>
          have hpd : p d = false := hhd d rfl
          cases hqd : q d with
          | true =>
            simp [collapseRunsAux, hqd] at hc
            subst hc; exact hs
          | false =>
            simp [collapseRunsAux, hqd] at hc
            subst hc; exact hpd

theorem getLast?_cons_ne_nil {α : Type} {a : α} {t : List α} (h : t ≠ []) :
    (a :: t).getLast? = t.getLast? := by
  cases t with
  | nil => exact absurd rfl h
  | cons b u => exact List.getLast?_cons_cons

theorem collapseRunsAux_false_ne_nil {q : Char → Bool} {s : Char}
    {l : List Char} (h : l ≠ []) : collapseRunsAux q s l false ≠ [] := by
  cases l with
  | nil => exact absurd rfl h
  | cons a as =>
    cases hqa : q a with
    | true => simp [collapseRunsAux, hqa]
    | false => simp [collapseRunsAux, hqa]

theorem head_collapseRunsAux_not_q {q : Char → Bool} {s : Char}
    {l : List Char} {c : Char} {b : Bool}
    (hh : l.head? = some c) (hq : q c = false) :
    (collapseRunsAux q s l b).head? = some c := by
  cases l with
  | nil => simp at hh
  | cons a as =>
    simp only [List.head?_cons, Option.some.injEq] at hh
    subst hh
    simp [collapseRunsAux, hq]

theorem head_collapseRunsAux_or {q : Char → Bool} {s : Char}
    {l : List Char} {x : Char}
    (hh : (collapseRunsAux q s l false).head? = some x) :
    x = s ∨ l.head? = some x := by
  cases l with
  | nil => simp [collapseRunsAux] at hh
  | cons a as =>
    cases hqa : q a with
    | true =>
      simp [collapseRunsAux, hqa] at hh
      exact Or.inl hh.symm
    | false =>
      simp [collapseRunsAux, hqa] at hh
      exact Or.inr (by simp [hh])

theorem getLast_collapseRunsAux_not_q {q : Char → Bool} {s : Char} :
    ∀ {l : List Char} {b : Bool} {c : Char},
      l.getLast? = some c → q c = false →
      (collapseRunsAux q s l b).getLast? = some c := by
  intro l
  induction l with
  | nil => intro b c hl _; simp at hl
  | cons a as ih =>
    intro b c hl hqc
    cases as with
    | nil =>
      simp only [List.getLast?_singleton, Option.some.injEq] at hl
      subst hl
      cases b <;> simp [collapseRunsAux, hqc]
    | cons d ds =>
      rw [List.getLast?_cons_cons] at hl
      have hrec : ∀ b', (collapseRunsAux q s (d :: ds) b').getLast? = some c :=
        fun b' => ih hl hqc
      have hne : ∀ b', collapseRunsAux q s (d :: ds) b' ≠ [] := by
        intro b' hnil
        have hx := hrec b'
        rw [hnil] at hx
        simp at hx
      cases hqa : q a with
      | false =>
        rw [collapseRunsAux_cons_neg hqa, getLast?_cons_ne_nil (hne false)]
        exact hrec false
      | true =>
        cases b with
        | true =>
          rw [collapseRunsAux_cons_pos hqa]
          exact hrec true
        | false =>
          rw [collapseRunsAux_cons_pos_start hqa, getLast?_cons_ne_nil (hne true)]
          exact hrec true

theorem getLast_collapseRunsAux_or {q : Char → Bool} {s : Char} :
    ∀ {l : List Char} {b : Bool} {x : Char},
      (collapseRunsAux q s l b).getLast? = some x →
      x = s ∨ l.getLast? = some x := by
  intro l
  induction l with
  | nil => intro b x hl; simp [collapseRunsAux] at hl
  | cons a as ih =>
    intro b x hl
    cases as with
    | nil =>
      cases hqa : q a with
      | true =>
        cases b with
        | true => rw [collapseRunsAux_cons_pos hqa] at hl; simp [collapseRunsAux] at hl
        | false =>
          rw [collapseRunsAux_cons_pos_start hqa] at hl
          simp [collapseRunsAux] at hl
          exact Or.inl hl.symm
      | false =>
        rw [collapseRunsAux_cons_neg hqa] at hl
        simp [collapseRunsAux] at hl
        exact Or.inr (by simp [hl])
    | cons d ds =>
      have htail : (d :: ds : List Char) ≠ [] := by simp
      cases hqa : q a with
      | false =>
        rw [collapseRunsAux_cons_neg hqa] at hl
        by_cases hnil : collapseRunsAux q s (d :: ds) false = []
        · exact absurd hnil (collapseRunsAux_false_ne_nil htail)
        · rw [getLast?_cons_ne_nil hnil] at hl
          rcases ih hl with h | h
          · exact Or.inl h
          · exact Or.inr (by rw [List.getLast?_cons_cons]; exact h)
      | true =>
        cases b with
        | true =>
          rw [collapseRunsAux_cons_pos hqa] at hl
          rcases ih hl with h | h
          · exact Or.inl h
          · exact Or.inr (by rw [List.getLast?_cons_cons]; exact h)
        | false =>
          rw [collapseRunsAux_cons_pos_start hqa] at hl
          by_cases hnil : collapseRunsAux q s (d :: ds) true = []
          · rw [hnil, List.getLast?_singleton] at hl
            exact Or.inl (Option.some.inj hl).symm
          · rw [getLast?_cons_ne_nil hnil] at hl
            rcases ih hl with h | h
            · exact Or.inl h
            · exact Or.inr (by rw [List.getLast?_cons_cons]; exact h)

/-! ### Helper lemmas: stripping and lowering -/

theorem head_dropWhile_not {p : Char → Bool} :
    ∀ {l : List Char} {c : Char}, (l.dropWhile p).head? = some c → p c = false := by
  intro l
  induction l with
  | nil => intro c hc; simp at hc
  | cons a as ih =>
    intro c hc
    cases hpa : p a with
    | true =>
      rw [List.dropWhile_cons, if_pos hpa] at hc
      exact ih hc
    | false =>
      rw [List.dropWhile_cons] at hc
      simp only [hpa, Bool.false_eq_true, if_false, List.head?_cons,
        Option.some.injEq] at hc
      subst hc
      exact hpa

theorem getLast_dropWhile {p : Char → Bool} :
    ∀ {l : List Char}, l.dropWhile p ≠ [] →
      (l.dropWhile p).getLast? = l.getLast? := by
  intro l
  induction l with
  | nil => intro h; simp at h
  | cons a as ih =>
    intro h
    cases hpa : p a with
    | false =>
      rw [List.dropWhile_cons]
      simp only [hpa, Bool.false_eq_true, if_false]
    | true =>
      rw [List.dropWhile_cons, if_pos hpa] at h ⊢
      have has : as ≠ [] := by
        intro hnil
        rw [hnil] at h
        simp at h
      rw [getLast?_cons_ne_nil has]
      exact ih h

theorem dropWhile_head_fix {p : Char → Bool} {l : List Char}
    (hh : ∀ c, l.head? = some c → p c = false) : l.dropWhile p = l := by
  cases l with
  | nil => rfl
  | cons a as =>
    have hpa : p a = false := hh a rfl
    rw [List.dropWhile_cons]
    simp [hpa]

theorem pyStrip_head {l : List Char} {c : Char}
    (h : (pyStrip l).head? = some c) : isPySpace c = false := by
  unfold pyStrip at h
  rw [List.head?_reverse] at h
  have hne : (((l.dropWhile isPySpace).reverse).dropWhile isPySpace) ≠ [] := by
    intro hnil
    rw [hnil] at h
    simp at h
  rw [getLast_dropWhile hne, List.getLast?_reverse] at h
  exact head_dropWhile_not h

theorem pyStrip_last {l : List Char} {c : Char}
    (h : (pyStrip l).getLast? = some c) : isPySpace c = false := by
  unfold pyStrip at h
  rw [List.getLast?_reverse] at h
  exact head_dropWhile_not h

theorem pyStrip_fix {l : List Char}
    (hh : ∀ c, l.head? = some c → isPySpace c = false)
    (hl : ∀ c, l.getLast? = some c → isPySpace c = false) : pyStrip l = l := by
  unfold pyStrip
  rw [dropWhile_head_fix hh]
  rw [dropWhile_head_fix (fun c hc => hl c (by rw [← List.head?_reverse]; exact hc))]
  exact List.reverse_reverse l

theorem mem_pyStrip {l : List Char} {c : Char} (h : c ∈ pyStrip l) : c ∈ l := by
  unfold pyStrip at h
  rw [List.mem_reverse] at h
  have h2 := (List.dropWhile_sublist isPySpace).subset h
  rw [List.mem_reverse] at h2
  exact (List.dropWhile_sublist isPySpace).subset h2

theorem toNat_ofNat_upper (n : Nat) (h1 : 65 ≤ n) (h2 : n ≤ 90) :
    (Char.ofNat (n + 32)).toNat = n + 32 := by
  have hv : (n + 32).isValidChar := Or.inl (by omega)
  simp [Char.ofNat, hv, Char.ofNatAux, Char.toNat, UInt32.toNat]

theorem toLower_toLower (c : Char) : c.toLower.toLower = c.toLower := by
  unfold Char.toLower
  by_cases h : c.toNat ≥ 65 ∧ c.toNat ≤ 90
  · rw [if_pos h]
    have ht := toNat_ofNat_upper c.toNat h.1 h.2
    rw [if_neg (fun hc => by rw [ht] at hc; omega)]
  · rw [if_neg h, if_neg h]

theorem pyLower_fix {l : List Char} (h : ∀ c ∈ l, Char.toLower c = c) :
    pyLower l = l := by
  unfold pyLower
  induction l with
  | nil => rfl
  | cons a as ih =>
    rw [List.map_cons, h a (List.mem_cons_self _ _),
      ih (fun c hc => h c (List.mem_cons_of_mem _ hc))]

theorem mem_pyLower {l : List Char} {c : Char} (h : c ∈ pyLower l) :
    Char.toLower c = c := by
  unfold pyLower at h
  rcases List.mem_map.1 h with ⟨a, _, ha⟩
  rw [← ha]
  exact toLower_toLower a

/-! ### Claim C6: idempotence of name normalization -/

/-- Claim C6 counterexample: normalization is not idempotent as stated.
With hyphen-normalization on, `"a-"` normalizes to `"a "` (the trailing
hyphen turns into a space only after stripping has already run), and the
second application trims that space away, giving `"a"`. -/
theorem normalize_collection_name_not_idem :
    normalize_collection_name true (normalize_collection_name true "a-")
      ≠ normalize_collection_name true "a-" := by decide

/-- Claim C6 (amended): normalization is idempotent in the
hyphen-normalization-off configuration for every input string; in the
hyphen-normalization-on configuration it is idempotent for every input whose
lowercased, whitespace-trimmed form neither begins nor ends with a hyphen. -/
theorem normalize_collection_name_idem_amended (s : String) :
    (normalize_collection_name false (normalize_collection_name false s)
      = normalize_collection_name false s)
    ∧ ((pyStrip (pyLower s.data)).head? ≠ some '-'
      → (pyStrip (pyLower s.data)).getLast? ≠ some '-'
      → normalize_collection_name true (normalize_collection_name true s)
        = normalize_collection_name true s) := by
  constructor
  · -- Off configuration: spaces and hyphens are collapsed separately.
    have hmem : ∀ c ∈ collapseRuns isHyphen '-' (collapseRuns isPySpace ' '
        (pyStrip (pyLower s.data))), Char.toLower c = c := by
      intro c hc
      unfold collapseRuns at hc
      rcases mem_collapseRunsAux hc with h | h
      · subst h; decide
      · rcases mem_collapseRunsAux h with h2 | h2
        · subst h2; decide
        · exact mem_pyLower (mem_pyStrip h2)
    have hlow := pyLower_fix hmem
    have hhd : ∀ x, (collapseRuns isHyphen '-' (collapseRuns isPySpace ' '
        (pyStrip (pyLower s.data)))).head? = some x → isPySpace x = false := by
      intro x hx
      rcases hst : pyStrip (pyLower s.data) with _ | ⟨c, cs⟩
      · rw [hst] at hx
        simp [collapseRuns, collapseRunsAux] at hx
      · have hc1 : isPySpace c = false :=
          pyStrip_head (by rw [hst]; rfl : (pyStrip (pyLower s.data)).head? = some c)
        rw [hst] at hx
        unfold collapseRuns at hx
        have hcs : (collapseRunsAux isPySpace ' ' (c :: cs) false).head? = some c :=
          head_collapseRunsAux_not_q rfl hc1
        rcases head_collapseRunsAux_or hx with h | h
        · subst h; decide
        · rw [hcs] at h
          rw [← Option.some.inj h]
          exact hc1
    have hld : ∀ x, (collapseRuns isHyphen '-' (collapseRuns isPySpace ' '
        (pyStrip (pyLower s.data)))).getLast? = some x → isPySpace x = false := by
      intro x hx
      rcases hst : pyStrip (pyLower s.data) with _ | ⟨c, cs⟩
      · rw [hst] at hx
        simp [collapseRuns, collapseRunsAux] at hx
      · cases hgl : (c :: cs).getLast? with
        | none => rw [List.getLast?_eq_none_iff] at hgl; cases hgl
        | some d =>
          have hd1 : isPySpace d = false :=
            pyStrip_last (by rw [hst, hgl] : (pyStrip (pyLower s.data)).getLast? = some d)
          rw [hst] at hx
          unfold collapseRuns at hx
          have hcs : (collapseRunsAux isPySpace ' ' (c :: cs) false).getLast? = some d :=
            getLast_collapseRunsAux_not_q hgl hd1
          rcases getLast_collapseRunsAux_or hx with h | h
          · subst h; decide
          · rw [hcs] at h
            rw [← Option.some.inj h]
            exact hd1
    have hstr := pyStrip_fix hhd hld
    have hok : ∀ c ∈ collapseRuns isHyphen '-' (collapseRuns isPySpace ' '
        (pyStrip (pyLower s.data))), isPySpace c = true → c = ' ' := by
      intro c hc hpc
      unfold collapseRuns at hc
      rcases mem_collapseRunsAux hc with h | h
      · subst h
        exact absurd hpc (by decide)
      · rcases chars_collapseRunsAux h with h2 | h2
        · exact h2
        · rw [h2] at hpc
          exact (Bool.false_ne_true hpc).elim
    have hnoadj : noAdj isPySpace (collapseRuns isHyphen '-' (collapseRuns isPySpace ' '
        (pyStrip (pyLower s.data)))) := by
      unfold collapseRuns
      exact noAdj_collapseRunsAux_preserve (by decide) noAdj_collapseRunsAux
    have hcs_fix : collapseRuns isPySpace ' ' (collapseRuns isHyphen '-'
        (collapseRuns isPySpace ' ' (pyStrip (pyLower s.data))))
        = collapseRuns isHyphen '-' (collapseRuns isPySpace ' '
          (pyStrip (pyLower s.data))) :=
      collapseRunsAux_fix hok hnoadj
    have hch_idem : collapseRuns isHyphen '-' (collapseRuns isHyphen '-'
        (collapseRuns isPySpace ' ' (pyStrip (pyLower s.data))))
        = collapseRuns isHyphen '-' (collapseRuns isPySpace ' '
          (pyStrip (pyLower s.data))) :=
      collapseRunsAux_idem (by decide)
    show String.mk (collapseRuns isHyphen '-' (collapseRuns isPySpace ' '
        (pyStrip (pyLower (collapseRuns isHyphen '-' (collapseRuns isPySpace ' '
          (pyStrip (pyLower s.data))))))))
      = String.mk (collapseRuns isHyphen '-' (collapseRuns isPySpace ' '
          (pyStrip (pyLower s.data))))
    rw [hlow, hstr, hcs_fix, hch_idem]
  · -- On configuration, under the no-edge-hyphen hypotheses.
    intro hh hl
    have hmem : ∀ c ∈ collapseRuns isSpaceOrHyphen ' '
        (pyStrip (pyLower s.data)), Char.toLower c = c := by
      intro c hc
      unfold collapseRuns at hc
      rcases mem_collapseRunsAux hc with h | h
      · subst h; decide
      · exact mem_pyLower (mem_pyStrip h)
    have hlow := pyLower_fix hmem
    have hhd : ∀ x, (collapseRuns isSpaceOrHyphen ' '
        (pyStrip (pyLower s.data))).head? = some x → isPySpace x = false := by
      intro x hx
      rcases hst : pyStrip (pyLower s.data) with _ | ⟨c, cs⟩
      · rw [hst] at hx
        simp [collapseRuns, collapseRunsAux] at hx
      · have hc1 : isPySpace c = false :=
          pyStrip_head (by rw [hst]; rfl : (pyStrip (pyLower s.data)).head? = some c)
        have hc2 : c ≠ '-' := by
          intro hcc
          exact hh (by rw [hst, hcc]; rfl)
        have hq : isSpaceOrHyphen c = false := by
          simp [isSpaceOrHyphen, isHyphen, hc1, hc2]
        rw [hst] at hx
        unfold collapseRuns at hx
        have hcs : (collapseRunsAux isSpaceOrHyphen ' ' (c :: cs) false).head? = some c :=
          head_collapseRunsAux_not_q rfl hq
        rw [hcs] at hx
        rw [← Option.some.inj hx]
        exact hc1
    have hld : ∀ x, (collapseRuns isSpaceOrHyphen ' '
        (pyStrip (pyLower s.data))).getLast? = some x → isPySpace x = false := by
      intro x hx
      rcases hst : pyStrip (pyLower s.data) with _ | ⟨c, cs⟩
      · rw [hst] at hx
        simp [collapseRuns, collapseRunsAux] at hx
      · cases hgl : (c :: cs).getLast? with
        | none => rw [List.getLast?_eq_none_iff] at hgl; cases hgl
        | some d =>
          have hd1 : isPySpace d = false :=
            pyStrip_last (by rw [hst, hgl] : (pyStrip (pyLower s.data)).getLast? = some d)
          have hd2 : d ≠ '-' := by
            intro hcc
            exact hl (by rw [hst, hgl, hcc])
          have hq : isSpaceOrHyphen d = false := by
            simp [isSpaceOrHyphen, isHyphen, hd1, hd2]
          rw [hst] at hx
          unfold collapseRuns at hx
          have hcs : (collapseRunsAux isSpaceOrHyphen ' ' (c :: cs) false).getLast? = some d :=
            getLast_collapseRunsAux_not_q hgl hq
          rw [hcs] at hx
          rw [← Option.some.inj hx]
          exact hd1
    have hstr := pyStrip_fix hhd hld
    have hok : ∀ c ∈ collapseRuns isSpaceOrHyphen ' '
        (pyStrip (pyLower s.data)), isSpaceOrHyphen c = true → c = ' ' := by
      intro c hc hpc
      unfold collapseRuns at hc
      rcases chars_collapseRunsAux hc with h | h
      · exact h
      · rw [h] at hpc
        exact (Bool.false_ne_true hpc).elim
    have hfix : collapseRuns isSpaceOrHyphen ' ' (collapseRuns isSpaceOrHyphen ' '
        (pyStrip (pyLower s.data)))
        = collapseRuns isSpaceOrHyphen ' ' (pyStrip (pyLower s.data)) :=
      collapseRunsAux_fix hok noAdj_collapseRunsAux
    show String.mk (collapseRuns isSpaceOrHyphen ' '
        (pyStrip (pyLower (collapseRuns isSpaceOrHyphen ' '
          (pyStrip (pyLower s.data))))))
      = String.mk (collapseRuns isSpaceOrHyphen ' ' (pyStrip (pyLower s.data)))
    rw [hlow, hstr, hfix]

/-- Claim C6 witness: the amended idempotence applied to concrete inputs in
both configurations. -/
theorem normalize_collection_name_idem_amended_witness :
    (normalize_collection_name false (normalize_collection_name false "My - Movie")
      = normalize_collection_name false "My - Movie")
    ∧ (normalize_collection_name true (normalize_collection_name true "My-Movie")
      = normalize_collection_name true "My-Movie") :=
  ⟨(normalize_collection_name_idem_amended "My - Movie").1,
   (normalize_collection_name_idem_amended "My-Movie").2 (by decide) (by decide)⟩

/-! ### Claim C7: concrete normalization examples -/

/-- Claim C7: with hyphen-normalization on, `"Foo-Bar"`, `"Foo Bar"` and
`"foo   bar"` all normalize to `"foo bar"`; with it off, `"Foo-Bar"` gives
`"foo-bar"`, `"Foo  Bar"` gives `"foo bar"`, and the two outputs differ. -/
theorem normalize_collection_name_examples :
    normalize_collection_name true "Foo-Bar" = "foo bar"
    ∧ normalize_collection_name true "Foo Bar" = "foo bar"
    ∧ normalize_collection_name true "foo   bar" = "foo bar"
    ∧ normalize_collection_name false "Foo-Bar" = "foo-bar"
    ∧ normalize_collection_name false "Foo  Bar" = "foo bar"
    ∧ normalize_collection_name false "Foo-Bar"
        ≠ normalize_collection_name false "Foo  Bar" := by
  refine ⟨by decide, by decide, by decide, by decide, by decide, by decide⟩

/-! ### Helper lemma: cache writes -/

theorem cacheGet_cacheSet_self (c : Cache) (k : String) (v : CacheEntry) :
    cacheGet (cacheSet c k v) k = some v := by
  induction c with
  | nil => simp [cacheSet, cacheGet]
  | cons p rest ih =>
    rcases p with ⟨k2, v2⟩
    by_cases hk : k2 = k
    · subst hk
      simp [cacheSet, cacheGet]
    · simp only [cacheSet, hk, if_false, cacheGet]
      exact ih

/-! ### Claims C1, C2, C3: the Change Detector -/

/-- Claim C1: on a cache hit where the stored local hash equals the computed
one but the currently selected remote poster identity differs from the stored
one, and the downloaded remote poster hashes equal to the local hash, the
Change Detector reports no upload required and rewrites the cache entry with
the newly observed poster identity, keeping the same local hash. -/
theorem change_detect_rekey_refresh (cfg : Config) (env : RemoteEnv)
    (rk h k : String) (cache : Cache) (entry : CacheEntry)
    (hre : cfg.reapply_posters = false)
    (hlh : env.local_hash = some h) (hne : h ≠ "")
    (hcg : cacheGet cache rk = some entry)
    (hel : entry.local_hash = h)
    (hck : get_current_poster_key env.posters = some k)
    (hdiff : some k ≠ entry.poster_key)
    (hdl : get_current_poster_hash env = some h) :
    change_detect cfg env rk cache
      = (false, some h, cacheSet cache rk ⟨h, some k⟩)
    ∧ cacheGet (change_detect cfg env rk cache).2.2 rk = some ⟨h, some k⟩ := by
  have hmain : change_detect cfg env rk cache
      = (false, some h, cacheSet cache rk ⟨h, some k⟩) := by
    simp [change_detect, hre, hlh, hne, hcg, hel, hck, hdiff, hdl]
  refine ⟨hmain, ?_⟩
  rw [hmain]
  exact cacheGet_cacheSet_self cache rk ⟨h, some k⟩

/-- Claim C1 witness: the refresh path at a concrete cache and environment. -/
theorem change_detect_rekey_refresh_witness :
    change_detect cfgMain envMatch "10" [("10", ⟨"h1", some "pkOLD"⟩)]
      = (false, some "h1",
          cacheSet [("10", ⟨"h1", some "pkOLD"⟩)] "10" ⟨"h1", some "pk1"⟩)
    ∧ cacheGet (change_detect cfgMain envMatch "10"
        [("10", ⟨"h1", some "pkOLD"⟩)]).2.2 "10" = some ⟨"h1", some "pk1"⟩ :=
  change_detect_rekey_refresh cfgMain envMatch "10" "h1" "pk1"
    [("10", ⟨"h1", some "pkOLD"⟩)] ⟨"h1", some "pkOLD"⟩
    rfl rfl (by decide) (by decide) rfl (by decide) (by decide) (by decide)

/-- Claim C2: on a cache hit where both the stored local hash and the stored
poster identity match the freshly observed values, the Change Detector
reports no upload required and returns the cache unchanged. -/
theorem change_detect_in_sync_frame (cfg : Config) (env : RemoteEnv)
    (rk h : String) (cache : Cache) (entry : CacheEntry)
    (hre : cfg.reapply_posters = false)
    (hlh : env.local_hash = some h) (hne : h ≠ "")
    (hcg : cacheGet cache rk = some entry)
    (hel : entry.local_hash = h)
    (hck : get_current_poster_key env.posters = entry.poster_key) :
    change_detect cfg env rk cache = (false, some h, cache) := by
  simp [change_detect, hre, hlh, hne, hcg, hel, hck]

/-- Claim C2 witness: the in-sync path at a concrete cache and environment. -/
theorem change_detect_in_sync_frame_witness :
    change_detect cfgMain envMatch "10" [("10", ⟨"h1", some "pk1"⟩)]
      = (false, some "h1", [("10", ⟨"h1", some "pk1"⟩)]) :=
  change_detect_in_sync_frame cfgMain envMatch "10" "h1"
    [("10", ⟨"h1", some "pk1"⟩)] ⟨"h1", some "pk1"⟩
    rfl rfl (by decide) (by decide) rfl (by decide)

/-- Claim C3: with the force-reapply flag set the Change Detector reports
upload required for every environment and cache, computes no local hash, and
leaves the cache untouched. -/
theorem change_detect_reapply_forces_upload (cfg : Config) (env : RemoteEnv)
    (rk : String) (cache : Cache) (hre : cfg.reapply_posters = true) :
    change_detect cfg env rk cache = (true, none, cache) := by
  simp [change_detect, hre]

/-- Claim C3 witness: force-reapply at a concrete environment whose local and
remote hashes agree (the upload is still required). -/
theorem change_detect_reapply_forces_upload_witness :
    change_detect cfgReapply envMatch "10" [("10", ⟨"h1", some "pk1"⟩)]
      = (true, none, [("10", ⟨"h1", some "pk1"⟩)]) :=
  change_detect_reapply_forces_upload cfgReapply envMatch "10"
    [("10", ⟨"h1", some "pk1"⟩)] rfl

/-! ### Claims C4, C10: cache update after a successful upload -/

/-- Claim C4 counterexample: with `REAPPLY_POSTERS` on, an upload succeeds
(status `"updated"`) while the cache is left exactly as before: the stale
entry keeps `oldhash` and `pk1` even though the local file hashes to
`newhash` and the newly selected remote poster is `pk2`. -/
theorem process_upload_reapply_stale_cache :
    (process_image_file cfgReapply envReapply "a" [("a", "10")]
        [("10", ⟨"oldhash", some "pk1"⟩)]).1 = "updated"
    ∧ (process_image_file cfgReapply envReapply "a" [("a", "10")]
        [("10", ⟨"oldhash", some "pk1"⟩)]).2.2.2.2
      = [("10", ⟨"oldhash", some "pk1"⟩)]
    ∧ envReapply.local_hash = some "newhash"
    ∧ get_current_poster_key envReapply.posters_after_upload = some "pk2"
    ∧ ("oldhash" : String) ≠ "newhash" := by
  exact ⟨by decide, by decide, rfl, by decide, by decide⟩

/-- Claim C4 (amended): after every successful poster upload for a matched
collection where a local file hash was computed, the cache entry for the
collection's rating key stores that hash together with the newly selected
remote poster identity (stored as `""` when the post-upload lookup observes
none); with no computed local hash (force-reapply or hash failure) the cache
is not written. -/
theorem process_upload_success_cache (cfg : Config) (env : RemoteEnv)
    (name rk h : String) (index : List (String × String))
    (cache cache₁ : Cache)
    (hfind : find_collection_by_name cfg name index = some rk)
    (hcd : change_detect cfg env rk cache = (true, some h, cache₁))
    (hne : h ≠ "")
    (hup : (upload_poster env.upload_file_exists cfg.max_retries
        env.upload_attempt_ok).1 = true) :
    (process_image_file cfg env name index cache).1 = "updated"
    ∧ cacheGet (process_image_file cfg env name index cache).2.2.2.2 rk
      = some ⟨h, some (pyOrEmpty (get_current_poster_key env.posters_after_upload))⟩ := by
  have hp : process_image_file cfg env name index cache
      = ("updated", some rk, get_current_poster_key env.posters_after_upload,
          some h, cacheSet cache₁ rk
            ⟨h, some (pyOrEmpty (get_current_poster_key env.posters_after_upload))⟩) := by
    simp [process_image_file, hfind, hcd, hup, optStrTruthy, hne]
  rw [hp]
  exact ⟨rfl, cacheGet_cacheSet_self cache₁ rk _⟩

/-- Claim C4 witness: the amended statement at a concrete run (no current
poster, upload succeeds, post-upload poster key `pk9`). -/
theorem process_upload_success_cache_witness :
    (process_image_file cfgMain envUpload "A" [("a", "10")] []).1 = "updated"
    ∧ cacheGet (process_image_file cfgMain envUpload "A" [("a", "10")] []).2.2.2.2 "10"
      = some ⟨"h1", some (pyOrEmpty (get_current_poster_key envUpload.posters_after_upload))⟩ :=
  process_upload_success_cache cfgMain envUpload "A" "10" "h1" [("a", "10")] [] []
    (by decide) (by decide) (by decide) rfl

/-- Claim C10: after a successful upload with a computed local hash, when the
post-upload poster-key lookup observes no selected poster, the cache entry is
still written, storing the empty string as the poster identity. -/
theorem process_upload_no_key_writes_empty (cfg : Config) (env : RemoteEnv)
    (name rk h : String) (index : List (String × String))
    (cache cache₁ : Cache)
    (hfind : find_collection_by_name cfg name index = some rk)
    (hcd : change_detect cfg env rk cache = (true, some h, cache₁))
    (hne : h ≠ "")
    (hup : (upload_poster env.upload_file_exists cfg.max_retries
        env.upload_attempt_ok).1 = true)
    (hkey : get_current_poster_key env.posters_after_upload = none) :
    (process_image_file cfg env name index cache).1 = "updated"
    ∧ cacheGet (process_image_file cfg env name index cache).2.2.2.2 rk
      = some ⟨h, some ""⟩ := by
  have hp : process_image_file cfg env name index cache
      = ("updated", some rk, none, some h,
          cacheSet cache₁ rk ⟨h, some ""⟩) := by
    simp [process_image_file, hfind, hcd, hup, optStrTruthy, hne, hkey, pyOrEmpty]
  rw [hp]
  exact ⟨rfl, cacheGet_cacheSet_self cache₁ rk _⟩

/-- Claim C10 witness: the empty-identity write at a concrete run. -/
theorem process_upload_no_key_writes_empty_witness :
    (process_image_file cfgMain envUploadNoKey "A" [("a", "10")] []).1 = "updated"
    ∧ cacheGet (process_image_file cfgMain envUploadNoKey "A"
        [("a", "10")] []).2.2.2.2 "10" = some ⟨"h1", some ""⟩ :=
  process_upload_no_key_writes_empty cfgMain envUploadNoKey "A" "10" "h1"
    [("a", "10")] [] [] (by decide) (by decide) (by decide) rfl rfl

/-! ### Claim C5: the Uploader retry loop -/

theorem uploadGo_all_fail (succeeds : Nat → Bool) :
    ∀ (remaining attempt : Nat),
      (∀ i, i < attempt + remaining → succeeds i = false) →
      uploadGo succeeds attempt remaining
        = (false, attempt + remaining,
            (List.range' attempt (remaining - 1)).map (2 ^ ·)) := by
  intro remaining
  induction remaining with
  | zero => intro attempt h; simp [uploadGo, List.range']
  | succ rem ih =>
    intro attempt h
    have hs : succeeds attempt = false := h attempt (by omega)
    cases rem with
    | zero => simp [uploadGo, hs, List.range']
    | succ r =>
      have hrec := ih (attempt + 1) (fun i hi => h i (by omega))
      rw [uploadGo, hs]
      simp only [Bool.false_eq_true, if_false]
      rw [if_neg (by omega : ¬(r + 1 = 0))]
      simp only [hrec]
      simp only [Prod.mk.injEq, List.range', List.map_cons]
      refine ⟨trivial, by omega, ?_⟩
      have h2 : r + 1 - 1 = r := by omega
      rw [h2]

/-- Claim C5: for an upload of an existing file where every attempt fails,
the Uploader makes exactly `MAX_RETRIES` attempts, sleeps the exponential
backoff `2 ^ attempt` (1, 2, 4, ...) after every failed attempt except the
last, and returns an unsuccessful result instead of raising. -/
theorem upload_poster_all_fail (max_retries : Nat) (succeeds : Nat → Bool)
    (hfail : ∀ i, i < max_retries → succeeds i = false) :
    upload_poster true max_retries succeeds
      = (false, max_retries, (List.range (max_retries - 1)).map (2 ^ ·)) := by
  have h := uploadGo_all_fail succeeds max_retries 0
    (fun i hi => hfail i (by omega))
  rw [List.range_eq_range']
  simpa [upload_poster] using h

/-- Claim C5 witness: three failing attempts give failure, attempt count 3,
and sleeps of 1 and 2 time units. -/
theorem upload_poster_all_fail_witness :
    upload_poster true 3 (fun _ => false)
      = (false, 3, (List.range (3 - 1)).map (2 ^ ·)) :=
  upload_poster_all_fail 3 (fun _ => false) (fun _ _ => rfl)

/-! ### Claim C8: the File Scanner -/

theorem foldl_scanStep (folder : String) :
    ∀ (entries : List DirEntry) (acc : List (String × String × String)),
      entries.foldl (scanStep folder) acc
        = acc ++ entries.filterMap (fun e =>
            if e.isFile = true ∧ strLower (splitext e.name).2 ∈ IMAGE_EXTENSIONS then
              some (e.name, folder ++ "/" ++ e.name, (splitext e.name).1)
            else none) := by
  intro entries
  induction entries with
  | nil => intro acc; simp
  | cons e es ih =>
    intro acc
    rw [List.foldl_cons, ih, List.filterMap_cons]
    cases hf : e.isFile with
    | false => simp [scanStep, hf]
    | true =>
      by_cases hext : strLower (splitext e.name).2 ∈ IMAGE_EXTENSIONS
      · simp [scanStep, hf, hext]
      · simp [scanStep, hf, hext]

/-- Claim C8: the scanner of an existing folder returns exactly the regular
files whose lowercased extension is in the fixed allow-list, each mapped to
its path and to the derived collection name (base name with the extension
stripped); a non-existent folder yields the empty result. -/
theorem get_image_files_spec (folder : String) (entries : List DirEntry) :
    get_image_files false folder entries = []
    ∧ (∀ x, x ∈ get_image_files true folder entries
        ↔ ∃ e ∈ entries, e.isFile = true
            ∧ strLower (splitext e.name).2 ∈ IMAGE_EXTENSIONS
            ∧ x = (e.name, folder ++ "/" ++ e.name, (splitext e.name).1)) := by
  refine ⟨rfl, ?_⟩
  intro x
  have hg : get_image_files true folder entries
      = entries.foldl (scanStep folder) [] := rfl
  rw [hg, foldl_scanStep, List.nil_append, List.mem_filterMap]
  constructor
  · rintro ⟨e, he, hfe⟩
    split at hfe
    · rename_i hP
      exact ⟨e, he, hP.1, hP.2, (Option.some.inj hfe).symm⟩
    · cases hfe
  · rintro ⟨e, he, h1, h2, h3⟩
    refine ⟨e, he, ?_⟩
    rw [if_pos ⟨h1, h2⟩, h3]

/-- Claim C8 witness: for the listing `a.jpg` (file), `a.txt` (file),
`b.png` (directory), only `a.jpg` is returned, mapped to collection `a`. -/
theorem get_image_files_spec_witness :
    ("a.jpg", "/p/a.jpg", "a") ∈ get_image_files true "/p"
      [⟨"a.jpg", true⟩, ⟨"a.txt", true⟩, ⟨"b.png", false⟩] :=
  ((get_image_files_spec "/p"
      [⟨"a.jpg", true⟩, ⟨"a.txt", true⟩, ⟨"b.png", false⟩]).2
    ("a.jpg", "/p/a.jpg", "a")).mpr
    ⟨⟨"a.jpg", true⟩, by decide, rfl, by decide, by decide⟩

/-! ### Claim C9: cache persistence in the Sync Orchestrator -/

/-- Claim C9 counterexample: a run that discovers no image files returns
before `save_poster_cache` is ever called — the cache is persisted zero
times, not once. -/
theorem sync_posters_no_files_no_save :
    (sync_posters cfgMain true "/posters" [] [] (fun _ => envInert) []).cache_saves
      = 0 := rfl

/-- Claim C9 (amended): for every run, the cache is persisted exactly once
when at least one image file is discovered, regardless of the per-item
environments and outcomes; a run that discovers no image files (empty or
non-existent folder, or no allow-listed file) returns early and persists it
zero times. -/
theorem sync_posters_save_count (cfg : Config) (folder_exists : Bool)
    (folder : String) (entries : List DirEntry)
    (index : List (String × String)) (env_of : String → RemoteEnv)
    (cache₀ : Cache) :
    (get_image_files folder_exists folder entries = []
      → (sync_posters cfg folder_exists folder entries index env_of
          cache₀).cache_saves = 0)
    ∧ (get_image_files folder_exists folder entries ≠ []
      → (sync_posters cfg folder_exists folder entries index env_of
          cache₀).cache_saves = 1) := by
  constructor
  · intro h
    simp [sync_posters, h]
  · intro h
    simp [sync_posters, List.isEmpty_iff, h]

/-- Claim C9 witness: a run over one discovered file (here matched to no
collection at all) still persists the cache exactly once. -/
theorem sync_posters_save_count_witness :
    get_image_files true "/posters" [⟨"a.jpg", true⟩] ≠ []
    ∧ (sync_posters cfgMain true "/posters" [⟨"a.jpg", true⟩] []
        (fun _ => envInert) []).cache_saves = 1 :=
  ⟨by decide,
   (sync_posters_save_count cfgMain true "/posters" [⟨"a.jpg", true⟩] []
      (fun _ => envInert) []).2 (by decide)⟩

end PosterSync
